import Mathlib

/-!
Verification of the segmented byte-buffer container ("Blob", `bdlbb::Blob`)
of this repository.

The repository ships the component's test driver
(`src/groups/bdl/bdlbb/bdlbb_blob.t.cpp`); the implementation file of the
component itself is not part of the source tree, so the data model and the
operations below are modelled from the specification (each such definition
says so in its doc comment), with the test driver's documented expectations
used to pin down the behaviour on zero-sized chunks.

A chunk (`BlobBuffer`) is modelled by its recorded size alone: all the
properties settled here are about length/size bookkeeping, for which the
storage handle of a chunk is irrelevant.  Sizes and lengths are `Nat`
(the C++ code uses non-negative `int` values throughout).
-/

set_option autoImplicit false

namespace Bdlbb

/-- Insert a value at a physical position of a size list
("insert `chunk` into the physical sequence at `index`"); for an index
past the end the value becomes the last element. -/
def insertAt : Nat → Nat → List Nat → List Nat
  | 0, c, l => c :: l
  | _ + 1, c, [] => [c]
  | i + 1, c, x :: l => x :: insertAt i c l

/-- Remove the element at a physical position of a size list
(used by `removeBuffer`); out-of-range positions leave the list unchanged. -/
def removeAt : Nat → List Nat → List Nat
  | _, [] => []
  | 0, _ :: l => l
  | i + 1, x :: l => x :: removeAt i l

/-- Modelled from the spec: `numDataBuffers` derived from the chunk sizes and
a logical length, as the component's `setLength` recomputes it — "smallest
prefix count k such that the sum of the first k chunks' sizes ≥ length
(0 if length == 0)". -/
def dataCount : List Nat → Nat → Nat
  | _, 0 => 0
  | [], _ + 1 => 0
  | s :: rest, l + 1 => 1 + dataCount rest (l + 1 - s)

/-- Modelled from the spec: `lastDataBufferLength` derived from the chunk
sizes and a logical length — "`length` minus the sum of sizes of the first
`numDataBuffers - 1` chunks (0 if `numDataBuffers == 0`)". -/
def lastPartLen : List Nat → Nat → Nat
  | _, 0 => 0
  | [], l + 1 => l + 1
  | s :: rest, l + 1 => if l + 1 ≤ s then l + 1 else lastPartLen rest (l + 1 - s)

/-- Modelled from the spec: the `bdlbb::Blob` segmented buffer (its
implementation file is missing from the tree).  `buffers` holds the recorded
size of every chunk in physical order; `length` is the logical data length;
`numDataBuffers` and `lastDataBufferLength` are the data/capacity boundary
bookkeeping (stored, because a caller-supplied zero-size data buffer makes
them non-derivable from `buffers` and `length` alone — the spec's documented
exception for zero-size appends); `factory` is the optional fixed-size
growth policy, by the chunk size it produces; `alloc` identifies the
allocator the blob was built with. -/
structure Blob where
  buffers : List Nat
  length : Nat
  numDataBuffers : Nat
  lastDataBufferLength : Nat
  factory : Option Nat
  alloc : Nat
  deriving DecidableEq

/-- Number of chunks of the blob, data and capacity together. -/
def Blob.numBuffers (b : Blob) : Nat := b.buffers.length

/-- Total capacity: the sum of the recorded sizes of all chunks. -/
def Blob.totalSize (b : Blob) : Nat := b.buffers.sum

/-- Observable state of a blob, as compared by the test driver:
length, numBuffers, numDataBuffers, lastDataBufferLength, totalSize. -/
def Blob.observable (b : Blob) : Nat × Nat × Nat × Nat × Nat :=
  (b.length, b.numBuffers, b.numDataBuffers, b.lastDataBufferLength, b.totalSize)

/-- Well-formedness of a blob state: the data/capacity boundary is within
the chunk list, the logical length is the sum of the full sizes of the data
buffers before the last one plus `lastDataBufferLength`, the last data
buffer's recorded size bounds `lastDataBufferLength`, an empty data region
means zero length, and a zero `lastDataBufferLength` with a non-empty data
region only occurs for a zero-size last data buffer (the spec's documented
zero-size append exception). -/
abbrev Blob.wf (b : Blob) : Prop :=
  b.numDataBuffers ≤ b.buffers.length ∧
  b.length = (b.buffers.take (b.numDataBuffers - 1)).sum + b.lastDataBufferLength ∧
  (0 < b.numDataBuffers → b.lastDataBufferLength ≤ b.buffers.getD (b.numDataBuffers - 1) 0) ∧
  (b.numDataBuffers = 0 → b.length = 0 ∧ b.lastDataBufferLength = 0) ∧
  (0 < b.numDataBuffers → b.lastDataBufferLength = 0 →
    b.buffers.getD (b.numDataBuffers - 1) 0 = 0)

/-- Modelled from the spec: an empty blob constructed with a fixed-size
growth policy producing chunks of size `s`, on allocator `a`. -/
def emptyBlobWithFactory (s a : Nat) : Blob :=
  { buffers := [], length := 0, numDataBuffers := 0, lastDataBufferLength := 0,
    factory := some s, alloc := a }

/-- Modelled from the spec: an empty blob constructed without a growth
policy, on allocator `a`. -/
def emptyBlobNoFactory (a : Nat) : Blob :=
  { buffers := [], length := 0, numDataBuffers := 0, lastDataBufferLength := 0,
    factory := none, alloc := a }

/-- Modelled from the spec: `Blob::setLength`.  Within current capacity the
chunk list is unchanged and the data/capacity boundary is recomputed from
the chunk sizes; past current capacity the growth policy is required
(`none` models the fatal contract violation) and chunks of the policy's
fixed size are appended until the total size covers the requested length.
A policy producing zero-size chunks would make the growth loop of the
component diverge; that case is likewise modelled as `none`. -/
def Blob.setLength (b : Blob) (newLength : Nat) : Option Blob :=
  if newLength ≤ b.totalSize then
    some { b with length := newLength,
                  numDataBuffers := dataCount b.buffers newLength,
                  lastDataBufferLength := lastPartLen b.buffers newLength }
  else
    match b.factory with
    | none => none
    | some s =>
      if s = 0 then none
      else
        let grown := b.buffers ++ List.replicate ((newLength - b.totalSize + s - 1) / s) s
        some { b with buffers := grown, length := newLength,
                      numDataBuffers := dataCount grown newLength,
                      lastDataBufferLength := lastPartLen grown newLength }

/-- Modelled from the spec: `Blob::trimLastDataBuffer` — shrink the recorded
size of the last data buffer to exactly `lastDataBufferLength`; no-op if
`length == 0` or no unused tail exists. -/
def Blob.trimLastDataBuffer (b : Blob) : Blob :=
  if b.length = 0 then b
  else if b.lastDataBufferLength < b.buffers.getD (b.numDataBuffers - 1) 0 then
    { b with buffers := b.buffers.set (b.numDataBuffers - 1) b.lastDataBufferLength }
  else b

/-- Modelled from the spec: `Blob::appendDataBuffer` — implicitly trim the
current last data buffer, then insert the chunk at the data/capacity
boundary as a new data buffer (even a zero-size one), increasing `length`
by the chunk's size. -/
def Blob.appendDataBuffer (b : Blob) (c : Nat) : Blob :=
  let t := b.trimLastDataBuffer
  { t with buffers := insertAt t.numDataBuffers c t.buffers,
           length := t.length + c,
           numDataBuffers := t.numDataBuffers + 1,
           lastDataBufferLength := c }

/-- Modelled from the spec: `Blob::insertBuffer` — insert the chunk at a
physical position; strictly inside the data region it becomes a data buffer
(`length += chunk.size`, also for a zero-size chunk), at or beyond the
data/capacity boundary it becomes a capacity buffer. -/
def Blob.insertBuffer (b : Blob) (i c : Nat) : Blob :=
  if i < b.numDataBuffers then
    { b with buffers := insertAt i c b.buffers,
             length := b.length + c,
             numDataBuffers := b.numDataBuffers + 1 }
  else
    { b with buffers := insertAt i c b.buffers }

/-- Modelled from the spec: `Blob::removeBuffer` — remove the chunk at a
physical position; a capacity buffer leaves the data bookkeeping alone, a
data buffer other than the last reduces `length` by its size, and the last
data buffer reduces `length` by `lastDataBufferLength` and makes the prior
second-to-last data buffer fully used. -/
def Blob.removeBuffer (b : Blob) (i : Nat) : Blob :=
  if b.numDataBuffers ≤ i then
    { b with buffers := removeAt i b.buffers }
  else if i + 1 < b.numDataBuffers then
    { b with buffers := removeAt i b.buffers,
             length := b.length - b.buffers.getD i 0,
             numDataBuffers := b.numDataBuffers - 1 }
  else
    { b with buffers := removeAt i b.buffers,
             length := b.length - b.lastDataBufferLength,
             numDataBuffers := b.numDataBuffers - 1,
             lastDataBufferLength :=
               if b.numDataBuffers = 1 then 0
               else b.buffers.getD (b.numDataBuffers - 2) 0 }

/-- Modelled from the spec: `Blob::removeBuffers(index, count)` — remove a
contiguous run of `count` chunks starting at a physical position, each
removed chunk accounted for exactly as `removeBuffer` accounts for the chunk
at that position (iterated removal at the same physical index, matching the
per-chunk expected-delta loop of the driver's case 7). -/
def Blob.removeBuffers (b : Blob) (i : Nat) : Nat → Blob
  | 0 => b
  | n + 1 => (b.removeBuffer i).removeBuffers i n

/-- Re-insert a run of chunks at consecutive physical positions through
`insertBuffer`: the re-insertion step of the remove/re-insert round trip,
restoring the removed chunks in their original order. -/
def Blob.insertBuffersAt (b : Blob) (i : Nat) : List Nat → Blob
  | [] => b
  | c :: cs => (b.insertBuffer i c).insertBuffersAt (i + 1) cs

/-- Modelled from the spec: `Blob::moveDataBuffers(other*)` — no-op when the
source has no data; otherwise the destination's entire chunk list is
replaced by exactly the source's data-buffer prefix together with the
source's data bookkeeping, and the source keeps only its former capacity
buffers with length 0.  Returns (destination, source) after the call. -/
def moveDataBuffers (dst src : Blob) : Blob × Blob :=
  if src.length = 0 then (dst, src)
  else
    ({ dst with buffers := src.buffers.take src.numDataBuffers,
                length := src.length,
                numDataBuffers := src.numDataBuffers,
                lastDataBufferLength := src.lastDataBufferLength },
     { src with buffers := src.buffers.drop src.numDataBuffers,
                length := 0, numDataBuffers := 0, lastDataBufferLength := 0 })

/-- Modelled from the spec: the O(1) raw exchange between two blobs (`Blob`
member `swap`) — a contract violation, rejected through the assertion
mechanism, when the two blobs were built on different allocators (`none`;
both operands are left untouched by the failed call). -/
def swapBlobs (x y : Blob) : Option (Blob × Blob) :=
  if x.alloc = y.alloc then some (y, x) else none

/-- Modelled from the spec: `Blob` move construction / move assignment (the
moved-from expectations follow the test driver's case 14), given the
destination's allocator `a`.  With a matching
allocator the destination adopts the source's entire state (growth policy
included) in O(1) and the source is left empty; with a differing allocator
the transfer falls back to a deep copy and the source is left unchanged.
Returns (destination, source) after the operation. -/
def moveBlob (src : Blob) (a : Nat) : Blob × Blob :=
  if a = src.alloc then
    ({ src with alloc := a },
     { buffers := [], length := 0, numDataBuffers := 0, lastDataBufferLength := 0,
       factory := src.factory, alloc := src.alloc })
  else
    ({ src with alloc := a }, src)

/-- Unused trailing capacity of the last data buffer: what an implicit or
explicit trim would discard from `totalSize` accounting. -/
def Blob.unusedTail (b : Blob) : Nat :=
  if 0 < b.numDataBuffers then
    b.buffers.getD (b.numDataBuffers - 1) 0 - b.lastDataBufferLength
  else 0

theorem insertAt_length (i c : Nat) (l : List Nat) :
    (insertAt i c l).length = l.length + 1 := by
  induction i generalizing l with
  | zero => rfl
  | succ i ih =>
    cases l with
    | nil => rfl
    | cons x xs => simp [insertAt, ih]

theorem insertAt_sum (i c : Nat) (l : List Nat) :
    (insertAt i c l).sum = l.sum + c := by
  induction i generalizing l with
  | zero => simp [insertAt]; omega
  | succ i ih =>
    cases l with
    | nil => simp [insertAt]
    | cons x xs => simp [insertAt, ih]; omega

theorem insertAt_getD_lt (i j c : Nat) (l : List Nat) (hji : j < i)
    (hjl : j < l.length) : (insertAt i c l).getD j 0 = l.getD j 0 := by
  induction l generalizing i j with
  | nil => simp at hjl
  | cons x xs ih =>
    cases i with
    | zero => omega
    | succ i =>
      cases j with
      | zero => rfl
      | succ j =>
        simp only [insertAt, List.getD_cons_succ]
        exact ih i j (by omega) (by simpa using hjl)

theorem insertAt_getD_self (i c : Nat) (l : List Nat) (hil : i ≤ l.length) :
    (insertAt i c l).getD i 0 = c := by
  induction l generalizing i with
  | nil =>
    cases i with
    | zero => rfl
    | succ i => simp at hil
  | cons x xs ih =>
    cases i with
    | zero => rfl
    | succ i => exact ih i (by simpa using hil)

theorem removeAt_length (i : Nat) (l : List Nat) (h : i < l.length) :
    (removeAt i l).length = l.length - 1 := by
  induction l generalizing i with
  | nil => simp at h
  | cons x xs ih =>
    cases i with
    | zero => rfl
    | succ i =>
      simp only [removeAt, List.length_cons]
      rw [ih i (by simpa using h)]
      have : 0 < xs.length := by simp at h; omega
      omega

theorem removeAt_sum (i : Nat) (l : List Nat) (h : i < l.length) :
    (removeAt i l).sum + l.getD i 0 = l.sum := by
  induction l generalizing i with
  | nil => simp at h
  | cons x xs ih =>
    cases i with
    | zero => simp [removeAt]; omega
    | succ i =>
      simp only [removeAt, List.sum_cons, List.getD_cons_succ]
      rw [Nat.add_assoc, ih i (by simpa using h)]

theorem getD_le_take_sum (l : List Nat) (i k : Nat) (h : i < k) :
    l.getD i 0 ≤ (l.take k).sum := by
  induction l generalizing i k with
  | nil => simp
  | cons x xs ih =>
    cases k with
    | zero => omega
    | succ k =>
      cases i with
      | zero => simp
      | succ i =>
        simp only [List.getD_cons_succ, List.take_succ_cons, List.sum_cons]
        exact Nat.le_add_left _ _ |>.trans
          (Nat.add_le_add_left (Nat.le_refl _) x) |>.trans
          (by exact Nat.add_le_add_left (ih i k (by omega)) x)

theorem sum_set_add (l : List Nat) (i v : Nat) (h : i < l.length) :
    (l.set i v).sum + l.getD i 0 = l.sum + v := by
  induction l generalizing i with
  | nil => simp at h
  | cons x xs ih =>
    cases i with
    | zero => simp [List.set]; omega
    | succ i =>
      simp only [List.set, List.sum_cons, List.getD_cons_succ]
      have := ih i (by simpa using h)
      omega

theorem getD_set_self (l : List Nat) (i v : Nat) (h : i < l.length) :
    (l.set i v).getD i 0 = v := by
  induction l generalizing i with
  | nil => simp at h
  | cons x xs ih =>
    cases i with
    | zero => rfl
    | succ i => exact ih i (by simpa using h)

theorem dataCount_zero (l : List Nat) : dataCount l 0 = 0 := by
  cases l <;> rfl

theorem lastPartLen_zero (l : List Nat) : lastPartLen l 0 = 0 := by
  cases l <;> rfl

theorem ceil_div_mul_ge (n s : Nat) (hs : 0 < s) : n ≤ ((n + s - 1) / s) * s := by
  have hdm := Nat.div_add_mod (n + s - 1) s
  have hlt : (n + s - 1) % s < s := Nat.mod_lt _ hs
  rw [Nat.mul_comm]
  omega

theorem dataCount_replicate (k s L : Nat) (hs : 0 < s) (hL : L ≤ k * s) :
    dataCount (List.replicate k s) L = (L + s - 1) / s := by
  induction k generalizing L with
  | zero =>
    have : L = 0 := by simpa using hL
    subst this
    rw [dataCount_zero, Nat.div_eq_of_lt (by omega)]
  | succ k ih =>
    cases L with
    | zero => rw [dataCount_zero, Nat.div_eq_of_lt (by omega)]
    | succ l =>
      rw [List.replicate_succ]
      show 1 + dataCount (List.replicate k s) (l + 1 - s) = (l + 1 + s - 1) / s
      by_cases hls : l + 1 ≤ s
      · have h0 : l + 1 - s = 0 := by omega
        rw [h0, dataCount_zero]
        have := Nat.div_eq_of_lt_le
          (by omega : 1 * s ≤ l + 1 + s - 1)
          (by omega : l + 1 + s - 1 < (1 + 1) * s)
        omega
      · have hks : (k + 1) * s = k * s + s := by ring
        have hrec : l + 1 - s ≤ k * s := by omega
        rw [ih (l + 1 - s) hrec]
        have h1 : l + 1 - s + s - 1 = l := by omega
        have h2 : l + 1 + s - 1 = l + s := by omega
        rw [h1, h2, Nat.add_div_right _ hs]
        omega

theorem lastPartLen_replicate (k s L : Nat) (hs : 0 < s) (hL0 : 0 < L)
    (hL : L ≤ k * s) :
    lastPartLen (List.replicate k s) L = L - ((L + s - 1) / s - 1) * s := by
  induction k generalizing L with
  | zero => omega
  | succ k ih =>
    cases L with
    | zero => omega
    | succ l =>
      rw [List.replicate_succ]
      show (if l + 1 ≤ s then l + 1 else lastPartLen (List.replicate k s) (l + 1 - s))
            = l + 1 - ((l + 1 + s - 1) / s - 1) * s
      by_cases hls : l + 1 ≤ s
      · rw [if_pos hls]
        have := Nat.div_eq_of_lt_le
          (by omega : 1 * s ≤ l + 1 + s - 1)
          (by omega : l + 1 + s - 1 < (1 + 1) * s)
        rw [this]
        simp
      · rw [if_neg hls]
        have hks : (k + 1) * s = k * s + s := by ring
        have hrec : l + 1 - s ≤ k * s := by omega
        rw [ih (l + 1 - s) (by omega) hrec]
        have h1 : l + 1 - s + s - 1 = l := by omega
        have h2 : l + 1 + s - 1 = l + s := by omega
        rw [h1, h2, Nat.add_div_right _ hs]
        have hq1 : 1 ≤ l / s := (Nat.one_le_div_iff hs).mpr (by omega)
        have hq2 : l / s * s ≤ l := Nat.div_mul_le_self l s
        have hq3 : (l / s - 1) * s + s = l / s * s := by
          have h : l / s - 1 + 1 = l / s := by omega
          calc (l / s - 1) * s + s = (l / s - 1 + 1) * s := by ring
          _ = l / s * s := by rw [h]
        have hadd : (l / s + 1 - 1) * s = l / s * s := by simp
        rw [hadd]
        omega

theorem trim_length (b : Blob) : b.trimLastDataBuffer.length = b.length := by
  unfold Blob.trimLastDataBuffer
  split
  · rfl
  · split <;> rfl

theorem trim_numDataBuffers (b : Blob) :
    b.trimLastDataBuffer.numDataBuffers = b.numDataBuffers := by
  unfold Blob.trimLastDataBuffer
  split
  · rfl
  · split <;> rfl

theorem trim_lastDataBufferLength (b : Blob) :
    b.trimLastDataBuffer.lastDataBufferLength = b.lastDataBufferLength := by
  unfold Blob.trimLastDataBuffer
  split
  · rfl
  · split <;> rfl

theorem trim_buffers_length (b : Blob) :
    b.trimLastDataBuffer.buffers.length = b.buffers.length := by
  unfold Blob.trimLastDataBuffer
  split
  · rfl
  · split
    · simp
    · rfl

theorem trim_totalSize (b : Blob) (hwf : b.wf) :
    b.trimLastDataBuffer.totalSize + b.unusedTail = b.totalSize := by
  obtain ⟨h1, h2, h3, h4, h5⟩ := hwf
  unfold Blob.trimLastDataBuffer Blob.unusedTail Blob.totalSize
  by_cases hlen : b.length = 0
  · rw [if_pos hlen]
    by_cases hndb : 0 < b.numDataBuffers
    · rw [if_pos hndb]
      have hdbl0 : b.lastDataBufferLength = 0 := by omega
      rw [hdbl0, h5 hndb hdbl0]
      omega
    · rw [if_neg hndb]
      omega
  · rw [if_neg hlen]
    have hndb : 0 < b.numDataBuffers := by
      by_contra h
      have := h4 (by omega)
      omega
    rw [if_pos hndb]
    by_cases htail :
        b.lastDataBufferLength < b.buffers.getD (b.numDataBuffers - 1) 0
    · rw [if_pos htail]
      have hidx : b.numDataBuffers - 1 < b.buffers.length := by omega
      have hset :=
        sum_set_add b.buffers (b.numDataBuffers - 1) b.lastDataBufferLength hidx
      show (b.buffers.set (b.numDataBuffers - 1) b.lastDataBufferLength).sum
            + (b.buffers.getD (b.numDataBuffers - 1) 0 - b.lastDataBufferLength)
          = b.buffers.sum
      omega
    · rw [if_neg htail]
      omega

theorem trim_getD (b : Blob) (hwf : b.wf) (h : 0 < b.numDataBuffers) :
    b.trimLastDataBuffer.buffers.getD (b.numDataBuffers - 1) 0
      = b.lastDataBufferLength := by
  obtain ⟨h1, h2, h3, h4, h5⟩ := hwf
  unfold Blob.trimLastDataBuffer
  by_cases hlen : b.length = 0
  · rw [if_pos hlen]
    have hdbl0 : b.lastDataBufferLength = 0 := by omega
    rw [hdbl0]
    exact h5 h hdbl0
  · rw [if_neg hlen]
    by_cases htail :
        b.lastDataBufferLength < b.buffers.getD (b.numDataBuffers - 1) 0
    · rw [if_pos htail]
      exact getD_set_self b.buffers (b.numDataBuffers - 1)
        b.lastDataBufferLength (by omega)
    · rw [if_neg htail]
      have := h3 h
      omega

/-- C1: `appendDataBuffer(c)` first shrinks the recorded size of the current
last data buffer to exactly `lastDataBufferLength` whenever it has an unused
tail, then inserts `c` at the data/capacity boundary as a new data buffer
even when `c.size == 0`; afterwards `length` has increased by `c.size`,
`numBuffers` by 1, `numDataBuffers` by 1, `lastDataBufferLength == c.size`,
and `totalSize` has changed by `c.size` minus the trimmed tail. -/
theorem appendDataBuffer_spec (b : Blob) (c : Nat) (hwf : b.wf) :
    (b.appendDataBuffer c).length = b.length + c ∧
    (b.appendDataBuffer c).numBuffers = b.numBuffers + 1 ∧
    (b.appendDataBuffer c).numDataBuffers = b.numDataBuffers + 1 ∧
    (b.appendDataBuffer c).lastDataBufferLength = c ∧
    (b.appendDataBuffer c).buffers.getD b.numDataBuffers 0 = c ∧
    (0 < b.numDataBuffers →
      (b.appendDataBuffer c).buffers.getD (b.numDataBuffers - 1) 0
        = b.lastDataBufferLength) ∧
    (b.appendDataBuffer c).totalSize + b.unusedTail = b.totalSize + c := by
  have hbl := trim_buffers_length b
  have hnd := trim_numDataBuffers b
  have hdl := trim_length b
  have hts := trim_totalSize b hwf
  have h1 := hwf.1
  refine ⟨?_, ?_, ?_, rfl, ?_, ?_, ?_⟩
  · show b.trimLastDataBuffer.length + c = b.length + c
    rw [hdl]
  · show (insertAt b.trimLastDataBuffer.numDataBuffers c
            b.trimLastDataBuffer.buffers).length = b.buffers.length + 1
    rw [insertAt_length, hbl]
  · show b.trimLastDataBuffer.numDataBuffers + 1 = b.numDataBuffers + 1
    rw [hnd]
  · show (insertAt b.trimLastDataBuffer.numDataBuffers c
            b.trimLastDataBuffer.buffers).getD b.numDataBuffers 0 = c
    rw [hnd]
    exact insertAt_getD_self _ _ _ (by rw [hbl]; exact h1)
  · intro h
    show (insertAt b.trimLastDataBuffer.numDataBuffers c
            b.trimLastDataBuffer.buffers).getD (b.numDataBuffers - 1) 0
        = b.lastDataBufferLength
    rw [hnd, insertAt_getD_lt _ _ _ _ (by omega) (by rw [hbl]; omega)]
    exact trim_getD b hwf h
  · show (insertAt b.trimLastDataBuffer.numDataBuffers c
            b.trimLastDataBuffer.buffers).sum + b.unusedTail
        = b.buffers.sum + c
    rw [insertAt_sum]
    have hts' : b.trimLastDataBuffer.buffers.sum + b.unusedTail
        = b.buffers.sum := hts
    omega

/-- The blob of test case 13 of the driver just before its
`appendDataBuffer` call: one 1024-byte chunk holding 4 data bytes and three
1024-byte capacity chunks. -/
def caseThirteenBlob : Blob :=
  { buffers := [1024, 1024, 1024, 1024], length := 4, numDataBuffers := 1,
    lastDataBufferLength := 4, factory := some 1024, alloc := 0 }

/-- Witness for C1 at the concrete blob of test case 13. -/
theorem appendDataBuffer_spec_witness :
    caseThirteenBlob.wf ∧
    ((caseThirteenBlob.appendDataBuffer 1024).length
        = caseThirteenBlob.length + 1024 ∧
     (caseThirteenBlob.appendDataBuffer 1024).numBuffers
        = caseThirteenBlob.numBuffers + 1 ∧
     (caseThirteenBlob.appendDataBuffer 1024).numDataBuffers
        = caseThirteenBlob.numDataBuffers + 1 ∧
     (caseThirteenBlob.appendDataBuffer 1024).lastDataBufferLength = 1024 ∧
     (caseThirteenBlob.appendDataBuffer 1024).buffers.getD
        caseThirteenBlob.numDataBuffers 0 = 1024 ∧
     (0 < caseThirteenBlob.numDataBuffers →
       (caseThirteenBlob.appendDataBuffer 1024).buffers.getD
          (caseThirteenBlob.numDataBuffers - 1) 0
         = caseThirteenBlob.lastDataBufferLength) ∧
     (caseThirteenBlob.appendDataBuffer 1024).totalSize
        + caseThirteenBlob.unusedTail
       = caseThirteenBlob.totalSize + 1024) :=
  ⟨by decide, appendDataBuffer_spec caseThirteenBlob 1024 (by decide)⟩

/-- C2: constructing an empty blob with a fixed-size growth policy of chunk
size `s ≥ 1` and calling `setLength(L)` yields `length == L`,
`numBuffers == ceil(L/s)`, `totalSize == ceil(L/s)*s`,
`numDataBuffers == ceil(L/s)` (0 if L == 0), and
`lastDataBufferLength == L - (numDataBuffers-1)*s` (0 if L == 0). -/
theorem setLength_fixed_policy_spec (s a L : Nat) (hs : 0 < s) :
    ∃ r, (emptyBlobWithFactory s a).setLength L = some r ∧
      r.length = L ∧
      r.numBuffers = (L + s - 1) / s ∧
      r.totalSize = ((L + s - 1) / s) * s ∧
      r.numDataBuffers = (L + s - 1) / s ∧
      r.lastDataBufferLength = L - (r.numDataBuffers - 1) * s := by
  by_cases hL : L = 0
  · subst hL
    have hceil : (0 + s - 1) / s = 0 := Nat.div_eq_of_lt (by omega)
    have heq : (emptyBlobWithFactory s a).setLength 0 = some
        { buffers := [], length := 0, numDataBuffers := dataCount [] 0,
          lastDataBufferLength := lastPartLen [] 0,
          factory := some s, alloc := a } := by
      unfold Blob.setLength emptyBlobWithFactory Blob.totalSize
      rw [if_pos (by simp)]
    refine ⟨_, heq, rfl, ?_, ?_, ?_, ?_⟩
    · show ([] : List Nat).length = (0 + s - 1) / s
      rw [hceil]
      rfl
    · show ([] : List Nat).sum = (0 + s - 1) / s * s
      rw [hceil]
      simp
    · show dataCount [] 0 = (0 + s - 1) / s
      rw [hceil]
      rfl
    · show lastPartLen [] 0 = 0 - (dataCount [] 0 - 1) * s
      rw [dataCount_zero, lastPartLen_zero]
      omega
  · have hge := ceil_div_mul_ge L s hs
    have heq : (emptyBlobWithFactory s a).setLength L = some
        { buffers := List.replicate ((L + s - 1) / s) s, length := L,
          numDataBuffers := dataCount (List.replicate ((L + s - 1) / s) s) L,
          lastDataBufferLength :=
            lastPartLen (List.replicate ((L + s - 1) / s) s) L,
          factory := some s, alloc := a } := by
      unfold Blob.setLength emptyBlobWithFactory Blob.totalSize
      rw [if_neg (by simp; omega)]
      show (if s = 0 then none else _) = _
      rw [if_neg (by omega)]
      simp
    refine ⟨_, heq, rfl, ?_, ?_, ?_, ?_⟩
    · show (List.replicate ((L + s - 1) / s) s).length = (L + s - 1) / s
      rw [List.length_replicate]
    · show (List.replicate ((L + s - 1) / s) s).sum = (L + s - 1) / s * s
      rw [List.sum_replicate, smul_eq_mul]
    · exact dataCount_replicate _ s L hs hge
    · show lastPartLen (List.replicate ((L + s - 1) / s) s) L
          = L - (dataCount (List.replicate ((L + s - 1) / s) s) L - 1) * s
      rw [dataCount_replicate _ s L hs hge]
      exact lastPartLen_replicate _ s L hs (by omega) hge

/-- Witness for C2 at s = 3, L = 7 (three chunks, last data buffer length 1). -/
theorem setLength_fixed_policy_spec_witness :
    0 < 3 ∧
    (∃ r, (emptyBlobWithFactory 3 0).setLength 7 = some r ∧
      r.length = 7 ∧
      r.numBuffers = (7 + 3 - 1) / 3 ∧
      r.totalSize = ((7 + 3 - 1) / 3) * 3 ∧
      r.numDataBuffers = (7 + 3 - 1) / 3 ∧
      r.lastDataBufferLength = 7 - (r.numDataBuffers - 1) * 3) :=
  ⟨by decide, setLength_fixed_policy_spec 3 0 7 (by decide)⟩

/-- C3: on a blob built without a growth policy, `setLength(newLength)` with
`newLength > totalSize` is a fatal contract violation (modelled as `none`,
no successor state), not a recoverable error value, and the blob's
observable state is unchanged after the failed call. -/
theorem setLength_without_policy_fatal (b : Blob) (L : Nat)
    (hf : b.factory = none) (hL : b.totalSize < L) :
    b.setLength L = none ∧ (b.setLength L).getD b = b := by
  have h : b.setLength L = none := by
    unfold Blob.setLength
    rw [if_neg (by omega), hf]
  exact ⟨h, by rw [h]; rfl⟩

/-- Witness for C3: a factoryless empty blob refuses `setLength 1`. -/
theorem setLength_without_policy_fatal_witness :
    (emptyBlobNoFactory 7).factory = none ∧
    (emptyBlobNoFactory 7).totalSize < 1 ∧
    ((emptyBlobNoFactory 7).setLength 1 = none ∧
      ((emptyBlobNoFactory 7).setLength 1).getD (emptyBlobNoFactory 7)
        = emptyBlobNoFactory 7) :=
  ⟨rfl, by decide, setLength_without_policy_fatal (emptyBlobNoFactory 7) 1 rfl
    (by decide)⟩

/-- C4: `removeBuffer(index)` decreases `numBuffers` by 1; a capacity buffer
(`index ≥ numDataBuffers`) leaves `length`, `numDataBuffers` and
`lastDataBufferLength` unchanged; a data buffer other than the last
decreases `length` by that chunk's size and `numDataBuffers` by 1 with
`lastDataBufferLength` unchanged; the last data buffer decreases `length`
by `lastDataBufferLength` (not the chunk's nominal size), decreases
`numDataBuffers` by 1 and makes the new last data buffer fully used, or
zeroes `length` and `lastDataBufferLength` when no data buffer remains. -/
theorem removeBuffer_spec (b : Blob) (i : Nat) (hwf : b.wf)
    (hi : i < b.numBuffers) :
    (b.removeBuffer i).numBuffers = b.numBuffers - 1 ∧
    (b.numDataBuffers ≤ i →
      (b.removeBuffer i).length = b.length ∧
      (b.removeBuffer i).numDataBuffers = b.numDataBuffers ∧
      (b.removeBuffer i).lastDataBufferLength = b.lastDataBufferLength) ∧
    (i + 1 < b.numDataBuffers →
      (b.removeBuffer i).length + b.buffers.getD i 0 = b.length ∧
      (b.removeBuffer i).numDataBuffers = b.numDataBuffers - 1 ∧
      (b.removeBuffer i).lastDataBufferLength = b.lastDataBufferLength) ∧
    (i + 1 = b.numDataBuffers →
      (b.removeBuffer i).length + b.lastDataBufferLength = b.length ∧
      (b.removeBuffer i).numDataBuffers = b.numDataBuffers - 1 ∧
      (1 < b.numDataBuffers →
        (b.removeBuffer i).lastDataBufferLength
          = b.buffers.getD (b.numDataBuffers - 2) 0) ∧
      (b.numDataBuffers = 1 →
        (b.removeBuffer i).length = 0 ∧
        (b.removeBuffer i).lastDataBufferLength = 0)) := by
  obtain ⟨h1, h2, h3, h4, h5⟩ := hwf
  have hrl := removeAt_length i b.buffers hi
  by_cases hc1 : b.numDataBuffers ≤ i
  · have hr : b.removeBuffer i = { b with buffers := removeAt i b.buffers } := by
      unfold Blob.removeBuffer
      rw [if_pos hc1]
    rw [hr]
    exact ⟨hrl, fun _ => ⟨rfl, rfl, rfl⟩, fun h => by omega, fun h => by omega⟩
  · by_cases hc2 : i + 1 < b.numDataBuffers
    · have hr : b.removeBuffer i =
          { b with buffers := removeAt i b.buffers,
                   length := b.length - b.buffers.getD i 0,
                   numDataBuffers := b.numDataBuffers - 1 } := by
        unfold Blob.removeBuffer
        rw [if_neg hc1, if_pos hc2]
      rw [hr]
      have hle : b.buffers.getD i 0 ≤ (b.buffers.take (b.numDataBuffers - 1)).sum :=
        getD_le_take_sum b.buffers i (b.numDataBuffers - 1) (by omega)
      refine ⟨hrl, fun h => by omega, fun h => ?_, fun h => by omega⟩
      refine ⟨?_, rfl, rfl⟩
      show b.length - b.buffers.getD i 0 + b.buffers.getD i 0 = b.length
      omega
    · have hc3 : i + 1 = b.numDataBuffers := by omega
      have hr : b.removeBuffer i =
          { b with buffers := removeAt i b.buffers,
                   length := b.length - b.lastDataBufferLength,
                   numDataBuffers := b.numDataBuffers - 1,
                   lastDataBufferLength :=
                     if b.numDataBuffers = 1 then 0
                     else b.buffers.getD (b.numDataBuffers - 2) 0 } := by
        unfold Blob.removeBuffer
        rw [if_neg hc1, if_neg hc2]
      rw [hr]
      refine ⟨hrl, fun h => by omega, fun h => by omega, fun _ => ?_⟩
      have hlen3 : b.length - b.lastDataBufferLength + b.lastDataBufferLength
          = b.length := by omega
      refine ⟨hlen3, rfl, fun h => ?_, fun h => ?_⟩
      · show (if b.numDataBuffers = 1 then 0
              else b.buffers.getD (b.numDataBuffers - 2) 0)
            = b.buffers.getD (b.numDataBuffers - 2) 0
        rw [if_neg (by omega)]
      · have h20 : b.length = b.lastDataBufferLength := by
          rw [h] at h2
          simpa using h2
        constructor
        · show b.length - b.lastDataBufferLength = 0
          omega
        · show (if b.numDataBuffers = 1 then 0
                else b.buffers.getD (b.numDataBuffers - 2) 0) = 0
          rw [if_pos h]

/-- The blob of a `removeBuffer` row of test case 7: chunk size 4, four
chunks, data length 10 (three data buffers, last one holding 2 bytes). -/
def caseSevenBlob : Blob :=
  { buffers := [4, 4, 4, 4], length := 10, numDataBuffers := 3,
    lastDataBufferLength := 2, factory := some 4, alloc := 0 }

/-- Witness for C4 at the concrete blob of test case 7, index 1. -/
theorem removeBuffer_spec_witness :
    caseSevenBlob.wf ∧ 1 < caseSevenBlob.numBuffers ∧
    ((caseSevenBlob.removeBuffer 1).numBuffers = caseSevenBlob.numBuffers - 1 ∧
     (caseSevenBlob.numDataBuffers ≤ 1 →
       (caseSevenBlob.removeBuffer 1).length = caseSevenBlob.length ∧
       (caseSevenBlob.removeBuffer 1).numDataBuffers
         = caseSevenBlob.numDataBuffers ∧
       (caseSevenBlob.removeBuffer 1).lastDataBufferLength
         = caseSevenBlob.lastDataBufferLength) ∧
     (1 + 1 < caseSevenBlob.numDataBuffers →
       (caseSevenBlob.removeBuffer 1).length + caseSevenBlob.buffers.getD 1 0
         = caseSevenBlob.length ∧
       (caseSevenBlob.removeBuffer 1).numDataBuffers
         = caseSevenBlob.numDataBuffers - 1 ∧
       (caseSevenBlob.removeBuffer 1).lastDataBufferLength
         = caseSevenBlob.lastDataBufferLength) ∧
     (1 + 1 = caseSevenBlob.numDataBuffers →
       (caseSevenBlob.removeBuffer 1).length
           + caseSevenBlob.lastDataBufferLength = caseSevenBlob.length ∧
       (caseSevenBlob.removeBuffer 1).numDataBuffers
         = caseSevenBlob.numDataBuffers - 1 ∧
       (1 < caseSevenBlob.numDataBuffers →
         (caseSevenBlob.removeBuffer 1).lastDataBufferLength
           = caseSevenBlob.buffers.getD (caseSevenBlob.numDataBuffers - 2) 0) ∧
       (caseSevenBlob.numDataBuffers = 1 →
         (caseSevenBlob.removeBuffer 1).length = 0 ∧
         (caseSevenBlob.removeBuffer 1).lastDataBufferLength = 0))) :=
  ⟨by decide, by decide, removeBuffer_spec caseSevenBlob 1 (by decide) (by decide)⟩

/-- C5: `insertBuffer(i, c)` with `0 ≤ i ≤ numBuffers` increases `numBuffers`
by 1 and leaves `lastDataBufferLength` unchanged; strictly inside the data
region it increases `length` by `c.size` and `numDataBuffers` by 1 (also for
a zero-size chunk); at or beyond the data/capacity boundary it leaves
`length` and `numDataBuffers` unchanged. -/
theorem insertBuffer_spec (b : Blob) (i c : Nat) (_hi : i ≤ b.numBuffers) :
    (b.insertBuffer i c).numBuffers = b.numBuffers + 1 ∧
    (b.insertBuffer i c).lastDataBufferLength = b.lastDataBufferLength ∧
    (i < b.numDataBuffers →
      (b.insertBuffer i c).length = b.length + c ∧
      (b.insertBuffer i c).numDataBuffers = b.numDataBuffers + 1) ∧
    (b.numDataBuffers ≤ i →
      (b.insertBuffer i c).length = b.length ∧
      (b.insertBuffer i c).numDataBuffers = b.numDataBuffers) := by
  by_cases h : i < b.numDataBuffers
  · have hr : b.insertBuffer i c =
        { b with buffers := insertAt i c b.buffers,
                 length := b.length + c,
                 numDataBuffers := b.numDataBuffers + 1 } := by
      unfold Blob.insertBuffer
      rw [if_pos h]
    rw [hr]
    exact ⟨insertAt_length i c b.buffers, rfl,
      fun _ => ⟨rfl, rfl⟩, fun hcontra => by omega⟩
  · have hr : b.insertBuffer i c =
        { b with buffers := insertAt i c b.buffers } := by
      unfold Blob.insertBuffer
      rw [if_neg h]
    rw [hr]
    exact ⟨insertAt_length i c b.buffers, rfl,
      fun hcontra => by omega, fun _ => ⟨rfl, rfl⟩⟩

/-- Witness for C5 at the blob of test case 7, inserting a size-5 chunk at
position 1 (inside the data region). -/
theorem insertBuffer_spec_witness :
    1 ≤ caseSevenBlob.numBuffers ∧
    ((caseSevenBlob.insertBuffer 1 5).numBuffers
        = caseSevenBlob.numBuffers + 1 ∧
     (caseSevenBlob.insertBuffer 1 5).lastDataBufferLength
        = caseSevenBlob.lastDataBufferLength ∧
     (1 < caseSevenBlob.numDataBuffers →
       (caseSevenBlob.insertBuffer 1 5).length = caseSevenBlob.length + 5 ∧
       (caseSevenBlob.insertBuffer 1 5).numDataBuffers
         = caseSevenBlob.numDataBuffers + 1) ∧
     (caseSevenBlob.numDataBuffers ≤ 1 →
       (caseSevenBlob.insertBuffer 1 5).length = caseSevenBlob.length ∧
       (caseSevenBlob.insertBuffer 1 5).numDataBuffers
         = caseSevenBlob.numDataBuffers)) :=
  ⟨by decide, insertBuffer_spec caseSevenBlob 1 5 (by decide)⟩

/-- C6: `moveDataBuffers` on a source with no data is a no-op; otherwise the
destination's entire chunk list becomes exactly the source's data-buffer
prefix, the destination adopts the source's `length`, `numDataBuffers` and
`lastDataBufferLength`, and the source retains only its former capacity
buffers with `length` 0. -/
theorem moveDataBuffers_spec (dst src : Blob) :
    (src.length = 0 → moveDataBuffers dst src = (dst, src)) ∧
    (0 < src.length →
      (moveDataBuffers dst src).1.buffers
          = src.buffers.take src.numDataBuffers ∧
      (moveDataBuffers dst src).1.length = src.length ∧
      (moveDataBuffers dst src).1.numDataBuffers = src.numDataBuffers ∧
      (moveDataBuffers dst src).1.lastDataBufferLength
          = src.lastDataBufferLength ∧
      (moveDataBuffers dst src).2.buffers
          = src.buffers.drop src.numDataBuffers ∧
      (moveDataBuffers dst src).2.length = 0 ∧
      (moveDataBuffers dst src).2.numDataBuffers = 0 ∧
      (moveDataBuffers dst src).2.lastDataBufferLength = 0) := by
  constructor
  · intro h
    unfold moveDataBuffers
    rw [if_pos h]
  · intro h
    unfold moveDataBuffers
    rw [if_neg (by omega)]
    exact ⟨rfl, rfl, rfl, rfl, rfl, rfl, rfl, rfl⟩

/-- Witness for C6: moving the data buffers of the test-case-7 blob (length
10, three data chunks and one capacity chunk) into the test-case-13 blob. -/
theorem moveDataBuffers_spec_witness :
    (moveDataBuffers caseThirteenBlob caseSevenBlob).1.length
        = caseSevenBlob.length ∧
    (moveDataBuffers caseThirteenBlob caseSevenBlob).1.buffers
        = caseSevenBlob.buffers.take caseSevenBlob.numDataBuffers ∧
    (moveDataBuffers caseThirteenBlob caseSevenBlob).2.length = 0 :=
  ⟨(((moveDataBuffers_spec caseThirteenBlob caseSevenBlob).2 (by decide)).2).1,
   ((moveDataBuffers_spec caseThirteenBlob caseSevenBlob).2 (by decide)).1,
   (((moveDataBuffers_spec caseThirteenBlob caseSevenBlob).2
      (by decide)).2.2.2.2.2).1⟩

theorem insertBuffer_inside (b : Blob) (i c : Nat) (h : i < b.numDataBuffers) :
    (b.insertBuffer i c).length = b.length + c ∧
    (b.insertBuffer i c).numDataBuffers = b.numDataBuffers + 1 ∧
    (b.insertBuffer i c).lastDataBufferLength = b.lastDataBufferLength := by
  unfold Blob.insertBuffer
  rw [if_pos h]
  exact ⟨rfl, rfl, rfl⟩

theorem insertBuffer_outside (b : Blob) (i c : Nat) (h : b.numDataBuffers ≤ i) :
    (b.insertBuffer i c).length = b.length ∧
    (b.insertBuffer i c).numDataBuffers = b.numDataBuffers ∧
    (b.insertBuffer i c).lastDataBufferLength = b.lastDataBufferLength := by
  unfold Blob.insertBuffer
  rw [if_neg (by omega)]
  exact ⟨rfl, rfl, rfl⟩

/-- A blob holding one fully used 4-byte chunk: the counterexample state for
the remove/re-insert round trip of the last data buffer. -/
def fullSingleBlob : Blob :=
  { buffers := [4], length := 4, numDataBuffers := 1,
    lastDataBufferLength := 4, factory := none, alloc := 0 }

/-- C7 fails as stated: on a well-formed blob holding one fully used 4-byte
data chunk, `removeBuffer(0)` followed by re-inserting an equal-sized chunk
at position 0 yields length 0, not the pre-removal length 4 (the re-inserted
chunk lands at the data/capacity boundary and becomes a capacity buffer). -/
theorem remove_reinsert_counterexample :
    fullSingleBlob.wf ∧
    fullSingleBlob.length = 4 ∧
    ((fullSingleBlob.removeBuffer 0).insertBuffer 0
        (fullSingleBlob.buffers.getD 0 0)).length = 0 ∧
    ((fullSingleBlob.removeBuffer 0).insertBuffer 0
        (fullSingleBlob.buffers.getD 0 0)).numDataBuffers = 0 := by
  refine ⟨?_, rfl, rfl, rfl⟩
  decide

theorem removeAt_getD_ge (l : List Nat) (i p : Nat) (h : i ≤ p) :
    (removeAt i l).getD p 0 = l.getD (p + 1) 0 := by
  induction l generalizing i p with
  | nil => simp [removeAt]
  | cons x xs ih =>
    cases i with
    | zero => rfl
    | succ i =>
      cases p with
      | zero => omega
      | succ p =>
        show (removeAt i xs).getD p 0 = xs.getD (p + 1) 0
        exact ih i p (by omega)

theorem drop_removeAt (l : List Nat) (i : Nat) :
    (removeAt i l).drop i = l.drop (i + 1) := by
  induction l generalizing i with
  | nil => simp [removeAt]
  | cons x xs ih =>
    cases i with
    | zero => rfl
    | succ i =>
      show (removeAt i xs).drop i = xs.drop (i + 1)
      exact ih i

theorem drop_cons_getD (l : List Nat) (i : Nat) (h : i < l.length) :
    l.drop i = l.getD i 0 :: l.drop (i + 1) := by
  induction l generalizing i with
  | nil => simp at h
  | cons x xs ih =>
    cases i with
    | zero => rfl
    | succ i =>
      show xs.drop i = xs.getD i 0 :: xs.drop (i + 1)
      exact ih i (by simpa using h)

theorem take_removeAt_sum (l : List Nat) (i k : Nat) (hik : i < k)
    (hkl : k ≤ l.length) :
    ((removeAt i l).take (k - 1)).sum + l.getD i 0 = (l.take k).sum := by
  induction l generalizing i k with
  | nil => simp at hkl; omega
  | cons x xs ih =>
    cases i with
    | zero =>
      cases k with
      | zero => omega
      | succ k =>
        show (xs.take k).sum + x = (x :: xs.take k).sum
        simp
        omega
    | succ i =>
      cases k with
      | zero => omega
      | succ k =>
        cases k with
        | zero => omega
        | succ k =>
          show ((x :: removeAt i xs).take (k + 1)).sum + xs.getD i 0
              = ((x :: xs).take (k + 2)).sum
          have := ih i (k + 1) (by omega) (by simpa using hkl)
          simp only [List.take_succ_cons, List.sum_cons]
          have h1 : k + 1 - 1 = k := by omega
          rw [h1] at this
          omega

theorem removeBuffer_fields_cap (b : Blob) (i : Nat)
    (h : b.numDataBuffers ≤ i) :
    (b.removeBuffer i).length = b.length ∧
    (b.removeBuffer i).numDataBuffers = b.numDataBuffers ∧
    (b.removeBuffer i).lastDataBufferLength = b.lastDataBufferLength ∧
    (b.removeBuffer i).buffers = removeAt i b.buffers := by
  unfold Blob.removeBuffer
  rw [if_pos h]
  exact ⟨rfl, rfl, rfl, rfl⟩

theorem removeBuffer_fields_mid (b : Blob) (i : Nat)
    (h : i + 1 < b.numDataBuffers) :
    (b.removeBuffer i).length = b.length - b.buffers.getD i 0 ∧
    (b.removeBuffer i).numDataBuffers = b.numDataBuffers - 1 ∧
    (b.removeBuffer i).lastDataBufferLength = b.lastDataBufferLength ∧
    (b.removeBuffer i).buffers = removeAt i b.buffers := by
  unfold Blob.removeBuffer
  rw [if_neg (by omega), if_pos h]
  exact ⟨rfl, rfl, rfl, rfl⟩

theorem removeBuffer_wf_mid (b : Blob) (i : Nat) (hwf : b.wf)
    (h : i + 1 < b.numDataBuffers) : (b.removeBuffer i).wf := by
  obtain ⟨h1, h2, h3, h4, h5⟩ := hwf
  obtain ⟨hl, hn, hd, hb⟩ := removeBuffer_fields_mid b i h
  rw [Blob.wf, hl, hn, hd, hb]
  have hil : i < b.buffers.length := by omega
  have hral := removeAt_length i b.buffers hil
  have hidx : (b.numDataBuffers - 1 - 1) + 1 = b.numDataBuffers - 1 := by omega
  have hgd := removeAt_getD_ge b.buffers i (b.numDataBuffers - 1 - 1)
    (by omega)
  rw [hidx] at hgd
  refine ⟨by omega, ?_, ?_, by omega, ?_⟩
  · have hts := take_removeAt_sum b.buffers i (b.numDataBuffers - 1)
      (by omega) (by omega)
    omega
  · intro hpos
    rw [hgd]
    exact h3 (by omega)
  · intro hpos hz
    rw [hgd]
    exact h5 (by omega) hz

theorem removeBuffers_capacity (n : Nat) (b : Blob) (i : Nat)
    (h : b.numDataBuffers ≤ i) :
    (b.removeBuffers i n).length = b.length ∧
    (b.removeBuffers i n).numDataBuffers = b.numDataBuffers ∧
    (b.removeBuffers i n).lastDataBufferLength = b.lastDataBufferLength := by
  induction n generalizing b with
  | zero => exact ⟨rfl, rfl, rfl⟩
  | succ n ih =>
    obtain ⟨hl, hn, hd, _⟩ := removeBuffer_fields_cap b i h
    have hih := ih (b.removeBuffer i) (by omega)
    have hstep : Blob.removeBuffers b i (n + 1)
        = Blob.removeBuffers (b.removeBuffer i) i n := rfl
    rw [hstep, hih.1, hih.2.1, hih.2.2, hl, hn, hd]
    exact ⟨rfl, rfl, rfl⟩

theorem removeBuffers_inside (n : Nat) (b : Blob) (i : Nat) (hwf : b.wf)
    (h : i + n < b.numDataBuffers) :
    (b.removeBuffers i n).length + ((b.buffers.drop i).take n).sum
        = b.length ∧
    (b.removeBuffers i n).numDataBuffers = b.numDataBuffers - n ∧
    (b.removeBuffers i n).lastDataBufferLength
        = b.lastDataBufferLength := by
  induction n generalizing b with
  | zero =>
    refine ⟨?_, ?_, rfl⟩
    · show b.length + ((b.buffers.drop i).take 0).sum = b.length
      simp
    · show b.numDataBuffers = b.numDataBuffers - 0
      omega
  | succ n ih =>
    obtain ⟨h1, h2, h3, h4, h5⟩ := hwf
    obtain ⟨hl, hn, hd, hb⟩ := removeBuffer_fields_mid b i (by omega)
    have hwfr := removeBuffer_wf_mid b i ⟨h1, h2, h3, h4, h5⟩ (by omega)
    have hih := ih (b.removeBuffer i) hwfr (by omega)
    have hil : i < b.buffers.length := by omega
    have hdrop : (b.removeBuffer i).buffers.drop i = b.buffers.drop (i + 1) := by
      rw [hb]
      exact drop_removeAt b.buffers i
    have hsum : ((b.buffers.drop i).take (n + 1)).sum
        = b.buffers.getD i 0 + ((b.buffers.drop (i + 1)).take n).sum := by
      rw [drop_cons_getD b.buffers i hil]
      simp
    have hle : b.buffers.getD i 0 ≤ (b.buffers.take (b.numDataBuffers - 1)).sum :=
      getD_le_take_sum b.buffers i (b.numDataBuffers - 1) (by omega)
    have hstep : Blob.removeBuffers b i (n + 1)
        = Blob.removeBuffers (b.removeBuffer i) i n := rfl
    rw [hstep, hsum, ← hdrop]
    refine ⟨by omega, by omega, hih.2.2.trans hd⟩

theorem insertBuffersAt_inside (cs : List Nat) (b : Blob) (i : Nat)
    (h : i < b.numDataBuffers) :
    (b.insertBuffersAt i cs).length = b.length + cs.sum ∧
    (b.insertBuffersAt i cs).numDataBuffers
        = b.numDataBuffers + cs.length ∧
    (b.insertBuffersAt i cs).lastDataBufferLength
        = b.lastDataBufferLength := by
  induction cs generalizing b i with
  | nil => exact ⟨by simp [Blob.insertBuffersAt], by simp [Blob.insertBuffersAt], rfl⟩
  | cons c cs ih =>
    obtain ⟨hl, hn, hd⟩ := insertBuffer_inside b i c h
    have hih := ih (b.insertBuffer i c) (i + 1) (by omega)
    have hstep : Blob.insertBuffersAt b i (c :: cs)
        = Blob.insertBuffersAt (b.insertBuffer i c) (i + 1) cs := rfl
    rw [hstep, hih.1, hih.2.1, hih.2.2, hl, hn, hd]
    refine ⟨by simp; omega, by simp; omega, rfl⟩

theorem insertBuffersAt_outside (cs : List Nat) (b : Blob) (i : Nat)
    (h : b.numDataBuffers ≤ i) :
    (b.insertBuffersAt i cs).length = b.length ∧
    (b.insertBuffersAt i cs).numDataBuffers = b.numDataBuffers ∧
    (b.insertBuffersAt i cs).lastDataBufferLength
        = b.lastDataBufferLength := by
  induction cs generalizing b i with
  | nil => exact ⟨rfl, rfl, rfl⟩
  | cons c cs ih =>
    obtain ⟨hl, hn, hd⟩ := insertBuffer_outside b i c h
    have hih := ih (b.insertBuffer i c) (i + 1) (by omega)
    have hstep : Blob.insertBuffersAt b i (c :: cs)
        = Blob.insertBuffersAt (b.insertBuffer i c) (i + 1) cs := rfl
    rw [hstep, hih.1, hih.2.1, hih.2.2, hl, hn, hd]
    exact ⟨rfl, rfl, rfl⟩

/-- C7 amended: removing a chunk with `removeBuffer(i)` — or a contiguous
run of `n` chunks with `removeBuffers(i, n)` — and re-inserting equal-sized
chunks at the same positions restores the pre-removal `length`,
`numDataBuffers` and `lastDataBufferLength`, provided the removed chunk or
run does not include the last data buffer (the run lies entirely in the
capacity region, `numDataBuffers ≤ i`, or entirely strictly before the last
data buffer, `i + n < numDataBuffers`; for a single chunk, `n = 1`, this is
exactly `i + 1 ≠ numDataBuffers`). -/
theorem remove_reinsert_restore (b : Blob) (i n : Nat) (hwf : b.wf)
    (hin : i + n ≤ b.numBuffers)
    (hrun : b.numDataBuffers ≤ i ∨ i + n < b.numDataBuffers) :
    ((b.removeBuffers i n).insertBuffersAt i
        ((b.buffers.drop i).take n)).length = b.length ∧
    ((b.removeBuffers i n).insertBuffersAt i
        ((b.buffers.drop i).take n)).numDataBuffers = b.numDataBuffers ∧
    ((b.removeBuffers i n).insertBuffersAt i
        ((b.buffers.drop i).take n)).lastDataBufferLength
        = b.lastDataBufferLength := by
  rcases hrun with hcap | hdata
  · obtain ⟨hl, hn2, hd⟩ := removeBuffers_capacity n b i hcap
    obtain ⟨hl2, hn3, hd2⟩ := insertBuffersAt_outside
      ((b.buffers.drop i).take n) (b.removeBuffers i n) i (by omega)
    rw [hl2, hn3, hd2, hl, hn2, hd]
    exact ⟨rfl, rfl, rfl⟩
  · obtain ⟨hl, hn2, hd⟩ := removeBuffers_inside n b i hwf hdata
    obtain ⟨hl2, hn3, hd2⟩ := insertBuffersAt_inside
      ((b.buffers.drop i).take n) (b.removeBuffers i n) i (by omega)
    have hlen : ((b.buffers.drop i).take n).length = n := by
      have h1 := hwf.1
      have : i + n ≤ b.buffers.length := hin
      simp [List.length_take, List.length_drop]
      omega
    rw [hl2, hn3, hd2, hn2, hd, hlen]
    refine ⟨by omega, by omega, rfl⟩

/-- Witness for C7 (amended) at the blob of test case 7: removing the run of
two data chunks at positions 0 and 1 (strictly before the last data buffer)
and re-inserting two size-4 chunks there. -/
theorem remove_reinsert_restore_witness :
    caseSevenBlob.wf ∧ 0 + 2 ≤ caseSevenBlob.numBuffers ∧
    (caseSevenBlob.numDataBuffers ≤ 0 ∨
      0 + 2 < caseSevenBlob.numDataBuffers) ∧
    (((caseSevenBlob.removeBuffers 0 2).insertBuffersAt 0
        ((caseSevenBlob.buffers.drop 0).take 2)).length
        = caseSevenBlob.length ∧
     ((caseSevenBlob.removeBuffers 0 2).insertBuffersAt 0
        ((caseSevenBlob.buffers.drop 0).take 2)).numDataBuffers
        = caseSevenBlob.numDataBuffers ∧
     ((caseSevenBlob.removeBuffers 0 2).insertBuffersAt 0
        ((caseSevenBlob.buffers.drop 0).take 2)).lastDataBufferLength
        = caseSevenBlob.lastDataBufferLength) :=
  ⟨by decide, by decide, by decide,
   remove_reinsert_restore caseSevenBlob 0 2 (by decide) (by decide)
     (by decide)⟩

/-- The blob obtained by `setLength(4)` on a fixed-size-4 policy followed by
`appendDataBuffer` of a zero-size chunk: its stored data/capacity boundary
(two data buffers, the last of size 0) is not derivable from the chunk sizes
and the length alone. -/
def trailingZeroBlob : Blob :=
  { buffers := [4, 0], length := 4, numDataBuffers := 2,
    lastDataBufferLength := 0, factory := some 4, alloc := 0 }

/-- C8 fails as stated for blobs containing zero-sized buffers: on the
reachable well-formed blob with chunk sizes `[4, 0]`, length 4 and two data
buffers (built by `setLength 4` then `appendDataBuffer` of a zero-size
chunk), `setLength(0); setLength(4)` yields `numDataBuffers == 1`, not the
prior 2. -/
theorem setLength_roundtrip_counterexample :
    ((emptyBlobWithFactory 4 0).setLength 4).map (fun x => x.appendDataBuffer 0)
        = some trailingZeroBlob ∧
    trailingZeroBlob.wf ∧
    trailingZeroBlob.length = 4 ∧
    ((trailingZeroBlob.setLength 0).bind (fun x => x.setLength 4)).map
        Blob.numDataBuffers = some 1 ∧
    trailingZeroBlob.numDataBuffers = 2 := by decide

/-- C8 amended: `setLength(L)` twice in a row produces the same state as
calling it once, for every blob (with or without a growth policy); and on a
blob whose stored `numDataBuffers` and `lastDataBufferLength` agree with the
values derived from its chunk sizes and its length (as `setLength` itself
leaves them — but not after `appendDataBuffer` of a zero-size chunk),
`setLength(0)` followed by `setLength(length)` reproduces the identical
state. -/
theorem setLength_idempotent_spec (b : Blob) (L : Nat) :
    ((b.setLength L).bind (fun x => x.setLength L) = b.setLength L) ∧
    (b.numDataBuffers = dataCount b.buffers b.length →
     b.lastDataBufferLength = lastPartLen b.buffers b.length →
     b.length ≤ b.totalSize →
     (b.setLength 0).bind (fun x => x.setLength b.length) = some b) := by
  obtain ⟨bufs, len, ndb, ldbl, fac, al⟩ := b
  constructor
  · by_cases hL : L ≤ Blob.totalSize ⟨bufs, len, ndb, ldbl, fac, al⟩
    · have hstep : Blob.setLength ⟨bufs, len, ndb, ldbl, fac, al⟩ L =
          some ⟨bufs, L, dataCount bufs L, lastPartLen bufs L, fac, al⟩ := by
        unfold Blob.setLength
        rw [if_pos hL]
      rw [hstep]
      show Blob.setLength ⟨bufs, L, dataCount bufs L, lastPartLen bufs L, fac, al⟩ L
          = some ⟨bufs, L, dataCount bufs L, lastPartLen bufs L, fac, al⟩
      unfold Blob.setLength
      rw [if_pos (show L ≤
        Blob.totalSize ⟨bufs, L, dataCount bufs L, lastPartLen bufs L, fac, al⟩
        from hL)]
    · cases fac with
      | none =>
        have hstep : Blob.setLength ⟨bufs, len, ndb, ldbl, none, al⟩ L = none := by
          unfold Blob.setLength
          rw [if_neg hL]
        rw [hstep]
        rfl
      | some s =>
        by_cases hs : s = 0
        · have hstep : Blob.setLength ⟨bufs, len, ndb, ldbl, some s, al⟩ L
              = none := by
            unfold Blob.setLength
            rw [if_neg hL]
            dsimp only
            rw [if_pos hs]
          rw [hstep]
          rfl
        · have hstep : Blob.setLength ⟨bufs, len, ndb, ldbl, some s, al⟩ L =
              some ⟨bufs ++ List.replicate ((L - bufs.sum + s - 1) / s) s, L,
                dataCount (bufs ++ List.replicate ((L - bufs.sum + s - 1) / s) s) L,
                lastPartLen (bufs ++ List.replicate ((L - bufs.sum + s - 1) / s) s) L,
                some s, al⟩ := by
            unfold Blob.setLength
            rw [if_neg hL]
            dsimp only
            rw [if_neg hs]
            rfl
          rw [hstep]
          have hcov : L ≤
              (bufs ++ List.replicate ((L - bufs.sum + s - 1) / s) s).sum := by
            rw [List.sum_append, List.sum_replicate, smul_eq_mul]
            have hge := ceil_div_mul_ge (L - bufs.sum) s (by omega)
            have hnotle : ¬ L ≤ bufs.sum := hL
            omega
          show Blob.setLength
              ⟨bufs ++ List.replicate ((L - bufs.sum + s - 1) / s) s, L,
                dataCount (bufs ++ List.replicate ((L - bufs.sum + s - 1) / s) s) L,
                lastPartLen (bufs ++ List.replicate ((L - bufs.sum + s - 1) / s) s) L,
                some s, al⟩ L = some _
          unfold Blob.setLength
          rw [if_pos (show L ≤ Blob.totalSize
            ⟨bufs ++ List.replicate ((L - bufs.sum + s - 1) / s) s, L,
              dataCount (bufs ++ List.replicate ((L - bufs.sum + s - 1) / s) s) L,
              lastPartLen (bufs ++ List.replicate ((L - bufs.sum + s - 1) / s) s) L,
              some s, al⟩ from hcov)]
  · intro h1 h2 hcap
    simp only at h1 h2
    have hstep0 : Blob.setLength ⟨bufs, len, ndb, ldbl, fac, al⟩ 0 =
        some ⟨bufs, 0, dataCount bufs 0, lastPartLen bufs 0, fac, al⟩ := by
      unfold Blob.setLength
      rw [if_pos (Nat.zero_le _)]
    rw [hstep0]
    show Blob.setLength ⟨bufs, 0, dataCount bufs 0, lastPartLen bufs 0, fac, al⟩ len
        = some ⟨bufs, len, ndb, ldbl, fac, al⟩
    unfold Blob.setLength
    rw [if_pos (show len ≤
      Blob.totalSize ⟨bufs, 0, dataCount bufs 0, lastPartLen bufs 0, fac, al⟩
      from hcap)]
    show some (⟨bufs, len, dataCount bufs len, lastPartLen bufs len, fac, al⟩ : Blob)
        = some (⟨bufs, len, ndb, ldbl, fac, al⟩ : Blob)
    rw [h1, h2]

/-- Witness for C8 (amended) at the blob of test case 7 (chunk sizes
`[4,4,4,4]`, length 10) and L = 7, discharging the round-trip part's
stored-boundary hypotheses concretely. -/
theorem setLength_idempotent_spec_witness :
    ((caseSevenBlob.setLength 7).bind (fun x => x.setLength 7)
        = caseSevenBlob.setLength 7) ∧
    caseSevenBlob.numDataBuffers
        = dataCount caseSevenBlob.buffers caseSevenBlob.length ∧
    caseSevenBlob.lastDataBufferLength
        = lastPartLen caseSevenBlob.buffers caseSevenBlob.length ∧
    caseSevenBlob.length ≤ caseSevenBlob.totalSize ∧
    ((caseSevenBlob.setLength 0).bind
        (fun x => x.setLength caseSevenBlob.length) = some caseSevenBlob) :=
  ⟨(setLength_idempotent_spec caseSevenBlob 7).1, by decide, by decide,
   by decide,
   (setLength_idempotent_spec caseSevenBlob 7).2 (by decide) (by decide)
     (by decide)⟩

theorem setLength_isSome_of_factory (b : Blob) (L s : Nat)
    (hf : b.factory = some s) (hs : 0 < s) : (b.setLength L).isSome := by
  unfold Blob.setLength
  by_cases h : L ≤ b.totalSize
  · rw [if_pos h]
    rfl
  · rw [if_neg h, hf]
    dsimp only
    rw [if_neg (by omega)]
    rfl

/-- C9: an O(1) raw exchange (member swap) between blobs built on different
allocators is a contract violation, rejected through the assertion
mechanism with both operands untouched (modelled as `none`: no successor
state); transferring content between such blobs falls back to a deep copy,
as move construction with a differing allocator does — the destination
receives the source's observable state while the source is unchanged. -/
theorem raw_swap_mismatched_alloc_spec (x y : Blob) (a : Nat)
    (hxy : x.alloc ≠ y.alloc) (ha : a ≠ x.alloc) :
    swapBlobs x y = none ∧
    (moveBlob x a).1.observable = x.observable ∧
    (moveBlob x a).2 = x := by
  refine ⟨?_, ?_, ?_⟩
  · unfold swapBlobs
    rw [if_neg hxy]
  · unfold moveBlob
    rw [if_neg ha]
    rfl
  · unfold moveBlob
    rw [if_neg ha]

/-- Witness for C9: the test-case-7 blob (allocator 0), a blob on
allocator 1, and destination allocator 5. -/
theorem raw_swap_mismatched_alloc_spec_witness :
    caseSevenBlob.alloc ≠ (emptyBlobNoFactory 1).alloc ∧
    (5 : Nat) ≠ caseSevenBlob.alloc ∧
    (swapBlobs caseSevenBlob (emptyBlobNoFactory 1) = none ∧
     (moveBlob caseSevenBlob 5).1.observable = caseSevenBlob.observable ∧
     (moveBlob caseSevenBlob 5).2 = caseSevenBlob) :=
  ⟨by decide, by decide,
   raw_swap_mismatched_alloc_spec caseSevenBlob (emptyBlobNoFactory 1) 5
     (by decide) (by decide)⟩

/-- C10: after a move (construction or assignment) between blobs on the same
allocator, the source is left empty (`length`, `totalSize`, `numBuffers`,
`numDataBuffers`, `lastDataBufferLength` all 0), while the destination
adopts the source's previous observable state and retains the source's
growth policy, so a subsequent `setLength` of any length — beyond the
adopted capacity included — succeeds. -/
theorem move_same_allocator_spec (src : Blob) (a s L : Nat) (ha : a = src.alloc)
    (hf : src.factory = some s) (hs : 0 < s) :
    (moveBlob src a).2.length = 0 ∧
    (moveBlob src a).2.totalSize = 0 ∧
    (moveBlob src a).2.numBuffers = 0 ∧
    (moveBlob src a).2.numDataBuffers = 0 ∧
    (moveBlob src a).2.lastDataBufferLength = 0 ∧
    (moveBlob src a).1.observable = src.observable ∧
    (moveBlob src a).1.factory = src.factory ∧
    ((moveBlob src a).1.setLength L).isSome := by
  have hr : moveBlob src a =
      ({ src with alloc := a },
       { buffers := [], length := 0, numDataBuffers := 0,
         lastDataBufferLength := 0, factory := src.factory,
         alloc := src.alloc }) := by
    unfold moveBlob
    rw [if_pos ha]
  rw [hr]
  refine ⟨rfl, rfl, rfl, rfl, rfl, rfl, rfl, ?_⟩
  exact setLength_isSome_of_factory _ L s hf hs

/-- Witness for C10: moving the test-case-7 blob (allocator 0, fixed-size-4
policy) to a destination on the same allocator, then growing to length 100
(beyond the adopted 16-byte capacity). -/
theorem move_same_allocator_spec_witness :
    (0 : Nat) = caseSevenBlob.alloc ∧
    caseSevenBlob.factory = some 4 ∧
    ((moveBlob caseSevenBlob 0).2.length = 0 ∧
     (moveBlob caseSevenBlob 0).2.totalSize = 0 ∧
     (moveBlob caseSevenBlob 0).2.numBuffers = 0 ∧
     (moveBlob caseSevenBlob 0).2.numDataBuffers = 0 ∧
     (moveBlob caseSevenBlob 0).2.lastDataBufferLength = 0 ∧
     (moveBlob caseSevenBlob 0).1.observable = caseSevenBlob.observable ∧
     (moveBlob caseSevenBlob 0).1.factory = caseSevenBlob.factory ∧
     ((moveBlob caseSevenBlob 0).1.setLength 100).isSome) :=
  ⟨by decide, by decide,
   move_same_allocator_spec caseSevenBlob 0 4 100 (by decide) (by decide)
     (by decide)⟩

end Bdlbb
